import Mathlib

/-!
Verification of the per-site extreme-climate metrics engine of
`process_climate_data.py` (repository SEveringham/ClimateData).

The development shallowly embeds the algorithmic core of the source file:

* `consecutive` — the run detector (`consecutive`, source lines 828-858),
  translated literally: successive differences, a leading sentinel `1`,
  break positions where the difference exceeds 1, slicing between break
  positions, and the final drop of length-1 fragments.
* the five-year slice boundaries used by `metrics` and `other_period`
  (source lines 1196-1218 and 1310-1331), modelled on integer second
  timestamps with the exact pandas `Timedelta(1, unit=Y)` value.
* the per-year and interannual spell detection of `metrics`
  (positions with excess signal, run detection, the length-3 floor,
  the most-recent-run rule of the `y1` slice).
* the no-rain masking of `main` (line 132) followed by the rainless
  predicate of `metrics` (lines 1518-1523), with the IEEE behaviour of a
  comparison against a NaN cell made explicit.
* the window statistics of `other_period` (temperature minima/maxima,
  the coefficient-of-variation fields with numpy division semantics).
* the per-site batch loop of `main` (lines 100-153) with exception
  propagation modelled in the `Except` monad.

Floating point values are modelled as exact rationals (the claims under
study only involve order comparisons and ratios that are exact), except
for the coefficient of variation where the population standard deviation
needs a real square root.
-/

namespace ClimateData

/-! ## Run detector (`consecutive`, source lines 828-858) -/

/-- Successive differences `indexes[i] - indexes[i-1]`, as built by the list
comprehension on source line 846. -/
def diffsOf (xs : List ℤ) : List ℤ :=
  (xs.zip xs.tail).map fun p => p.2 - p.1

/-- The `count` array of source line 847: a sentinel `1` for the first
element followed by the successive differences. -/
def countOf (xs : List ℤ) : List ℤ :=
  1 :: diffsOf xs

/-- Break positions, `np.where(count > 1)[0]` of source lines 850-851:
the indices of `count` holding a value greater than 1. -/
def breaksOf (xs : List ℤ) : List ℕ :=
  (List.range (countOf xs).length).filter fun i => decide (1 < (countOf xs).getD i 0)

/-- Python slice `xs[s:f]` for natural bounds. -/
def pySlice (xs : List ℤ) (s f : ℕ) : List ℤ :=
  (xs.drop s).take (f - s)

/-- The run detector of source lines 828-858: slice the index list between
`start = [0] + breaks` and `finish = breaks + [len(count)]`, then drop the
fragments of length 1. -/
def consecutive (xs : List ℤ) : List (List ℤ) :=
  (((0 :: breaksOf xs).zip (breaksOf xs ++ [(countOf xs).length])).map
    fun q => pySlice xs q.1 q.2).filter fun e => decide (1 < e.length)

/-- Reference definition, following the words of the specification
(spec section 4.3): group a position list into its maximal runs of
positions with pairwise adjacent gap exactly 1.  `specInsert` prepends a
position to the run decomposition of the tail, merging it into the first
run exactly when that run starts at the successor position. -/
def specInsert (x : ℤ) : List (List ℤ) → List (List ℤ)
  | (y :: r) :: rs => if y = x + 1 then (x :: y :: r) :: rs else [x] :: (y :: r) :: rs
  | other => [x] :: other

/-- Reference definition (spec section 4.3): the maximal gap-1 runs of a
position list, including the singleton runs. -/
def specRuns : List ℤ → List (List ℤ)
  | [] => []
  | x :: xs => specInsert x (specRuns xs)

/-- Reference definition (spec section 4.3): the maximal gap-1 runs with
all runs of length 1 discarded — what the specification states the run
detector returns. -/
def specMaximalRuns (xs : List ℤ) : List (List ℤ) :=
  (specRuns xs).filter fun r => decide (1 < r.length)

/-- The slices of `xs` cut at an ascending list of break positions,
starting at `s`: a recursive reformulation of the zip of the `start` and
`finish` arrays of the source. -/
def sliceList (xs : List ℤ) : ℕ → List ℕ → List (List ℤ)
  | s, [] => [xs.drop s]
  | s, p :: ps => pySlice xs s p :: sliceList xs p ps

example : consecutive [1, 2, 3, 7, 8, 10] = [[1, 2, 3], [7, 8]] := by decide
example : specMaximalRuns [1, 2, 3, 7, 8, 10] = [[1, 2, 3], [7, 8]] := by decide
example : consecutive [] = [] := by decide
example : consecutive [4] = [] := by decide

/-! ## Generic `getD` access lemmas -/

theorem getD_drop : ∀ (xs : List ℤ) (s j : ℕ), (xs.drop s).getD j 0 = xs.getD (s + j) 0
  | [], s, j => by simp
  | _ :: _, 0, j => by rw [List.drop_zero, Nat.zero_add]
  | a :: t, s + 1, j => by
    rw [List.drop_succ_cons, getD_drop t s j,
      show s + 1 + j = (s + j) + 1 from by omega, List.getD_cons_succ]

theorem getD_take : ∀ (xs : List ℤ) (k j : ℕ), j < k → (xs.take k).getD j 0 = xs.getD j 0
  | [], _, _, _ => by simp
  | _ :: _, k + 1, 0, _ => rfl
  | a :: t, k + 1, j + 1, h => by
    rw [List.take_succ_cons, List.getD_cons_succ, List.getD_cons_succ]
    exact getD_take t k j (by omega)
  | _ :: _, 0, j, h => by omega

theorem getD_pySlice (xs : List ℤ) (s p j : ℕ) (h : j < p - s) :
    (pySlice xs s p).getD j 0 = xs.getD (s + j) 0 := by
  rw [pySlice, getD_take _ _ _ h, getD_drop]

theorem chain'_iff_getD {R : ℤ → ℤ → Prop} : ∀ (l : List ℤ),
    List.Chain' R l ↔ ∀ j, j + 1 < l.length → R (l.getD j 0) (l.getD (j + 1) 0)
  | [] => ⟨fun _ j hj => by simp at hj, fun _ => List.chain'_nil⟩
  | [a] => ⟨fun _ j hj => by simp only [List.length_cons, List.length_nil] at hj; omega,
      fun _ => List.chain'_singleton a⟩
  | a :: b :: t => by
    rw [List.chain'_cons, chain'_iff_getD (b :: t)]
    constructor
    · rintro ⟨hab, h⟩ j hj
      cases j with
      | zero => simpa using hab
      | succ k =>
        have hk : k + 1 < (b :: t).length := by
          simp only [List.length_cons] at hj ⊢
          omega
        simpa using h k hk
    · intro h
      constructor
      · have := h 0 (by simp only [List.length_cons]; omega)
        simpa using this
      · intro k hk
        have hk2 : k + 1 + 1 < (a :: b :: t).length := by
          simp only [List.length_cons] at hk ⊢
          omega
        simpa using h (k + 1) hk2

/-! ## Structure of the reference run decomposition -/

theorem specRuns_first : ∀ (B : List ℤ), B ≠ [] → ∃ t rs, specRuns B = (B.getD 0 0 :: t) :: rs
  | [], h => absurd rfl h
  | [b], _ => ⟨[], [], rfl⟩
  | b :: b2 :: B2, _ => by
    obtain ⟨t, rs, hrec⟩ := specRuns_first (b2 :: B2) (by simp)
    simp only [List.getD_cons_zero] at hrec ⊢
    by_cases hb : b2 = b + 1
    · refine ⟨b2 :: t, rs, ?_⟩
      show specInsert b (specRuns (b2 :: B2)) = (b :: b2 :: t) :: rs
      rw [hrec]
      simp only [specInsert]
      rw [if_pos hb]
    · refine ⟨[], (b2 :: t) :: rs, ?_⟩
      show specInsert b (specRuns (b2 :: B2)) = [b] :: (b2 :: t) :: rs
      rw [hrec]
      simp only [specInsert]
      rw [if_neg hb]

theorem specRuns_append : ∀ (A : List ℤ), A ≠ [] → List.Chain' (fun a b => b = a + 1) A →
    ∀ (B : List ℤ), (B = [] ∨ B.getD 0 0 ≠ A.getD (A.length - 1) 0 + 1) →
    specRuns (A ++ B) = A :: specRuns B
  | [], hne, _, _, _ => absurd rfl hne
  | [a], _, _, B, hcond => by
    cases B with
    | nil => rfl
    | cons b B2 =>
      have hcond2 : b ≠ a + 1 := by
        rcases hcond with h | h
        · exact absurd h (by simp)
        · simpa using h
      obtain ⟨t, rs, hrec⟩ := specRuns_first (b :: B2) (by simp)
      simp only [List.getD_cons_zero] at hrec
      show specInsert a (specRuns (b :: B2)) = [a] :: specRuns (b :: B2)
      rw [hrec]
      simp only [specInsert]
      rw [if_neg hcond2]
  | a :: a2 :: A2, _, hch, B, hcond => by
    have hch1 : a2 = a + 1 := (List.chain'_cons.mp hch).1
    have hch2 := (List.chain'_cons.mp hch).2
    have hcond2 : B = [] ∨ B.getD 0 0 ≠ (a2 :: A2).getD ((a2 :: A2).length - 1) 0 + 1 := by
      rcases hcond with h | h
      · exact Or.inl h
      · refine Or.inr ?_
        have hsh : (a :: a2 :: A2).getD ((a :: a2 :: A2).length - 1) 0 =
            (a2 :: A2).getD ((a2 :: A2).length - 1) 0 := by
          simp only [List.length_cons, Nat.add_sub_cancel, List.getD_cons_succ]
        rwa [hsh] at h
    have ih := specRuns_append (a2 :: A2) (by simp) hch2 B hcond2
    show specInsert a (specRuns ((a2 :: A2) ++ B)) = (a :: a2 :: A2) :: specRuns B
    rw [ih]
    simp only [specInsert]
    rw [if_pos hch1]

theorem specRuns_of_chain (A : List ℤ) (hne : A ≠ [])
    (hch : List.Chain' (fun a b => b = a + 1) A) : specRuns A = [A] := by
  have h := specRuns_append A hne hch [] (Or.inl rfl)
  simpa using h

theorem chain'_of_mem_specInsert (x : ℤ) (L : List (List ℤ))
    (hL : ∀ r ∈ L, List.Chain' (fun a b => b = a + 1) r) :
    ∀ r ∈ specInsert x L, List.Chain' (fun a b => b = a + 1) r := by
  intro r hr
  cases L with
  | nil =>
    simp only [specInsert, List.mem_singleton] at hr
    subst hr
    exact List.chain'_singleton x
  | cons hd tl =>
    cases hd with
    | nil =>
      simp only [specInsert] at hr
      rcases List.mem_cons.mp hr with rfl | hr2
      · exact List.chain'_singleton x
      · exact hL r hr2
    | cons y r0 =>
      simp only [specInsert] at hr
      by_cases hy : y = x + 1
      · rw [if_pos hy] at hr
        rcases List.mem_cons.mp hr with rfl | hr2
        · rw [List.chain'_cons]
          exact ⟨hy, hL (y :: r0) (List.mem_cons_self _ _)⟩
        · exact hL r (List.mem_cons_of_mem _ hr2)
      · rw [if_neg hy] at hr
        rcases List.mem_cons.mp hr with rfl | hr2
        · exact List.chain'_singleton x
        · exact hL r hr2

theorem chain'_of_mem_specRuns :
    ∀ (xs : List ℤ) (r : List ℤ), r ∈ specRuns xs →
      List.Chain' (fun a b => b = a + 1) r
  | [], r, hr => by simp [specRuns] at hr
  | x :: t, r, hr =>
    chain'_of_mem_specInsert x (specRuns t)
      (fun r2 hr2 => chain'_of_mem_specRuns t r2 hr2) r hr

/-! ## Properties of the break positions -/

theorem diffsOf_cons_cons (a b : ℤ) (t : List ℤ) :
    diffsOf (a :: b :: t) = (b - a) :: diffsOf (b :: t) := rfl

theorem diffsOf_getD : ∀ (xs : List ℤ) (j : ℕ), j + 1 < xs.length →
    (diffsOf xs).getD j 0 = xs.getD (j + 1) 0 - xs.getD j 0
  | [], _, h => by simp at h
  | [a], j, h => by simp only [List.length_cons, List.length_nil] at h; omega
  | a :: b :: t, 0, _ => by rw [diffsOf_cons_cons]; rfl
  | a :: b :: t, j + 1, h => by
    rw [diffsOf_cons_cons]
    simp only [List.getD_cons_succ]
    exact diffsOf_getD (b :: t) j (by simp only [List.length_cons] at h ⊢; omega)

theorem countOf_getD_succ (xs : List ℤ) (j : ℕ) :
    (countOf xs).getD (j + 1) 0 = (diffsOf xs).getD j 0 :=
  List.getD_cons_succ

theorem countOf_length (a : ℤ) (t : List ℤ) : (countOf (a :: t)).length = t.length + 1 := by
  simp only [countOf, List.length_cons, diffsOf, List.length_map, List.length_zip,
    List.tail_cons]
  omega

theorem length_le_countOf_length : ∀ (xs : List ℤ), xs.length ≤ (countOf xs).length
  | [] => by simp [countOf, diffsOf]
  | a :: t => by rw [countOf_length]; simp

theorem mem_breaksOf (xs : List ℤ) (i : ℕ) :
    i ∈ breaksOf xs ↔ i < (countOf xs).length ∧ 1 < (countOf xs).getD i 0 := by
  simp [breaksOf]

theorem breaksOf_pos (xs : List ℤ) (i : ℕ) (h : i ∈ breaksOf xs) : 1 ≤ i := by
  rcases (mem_breaksOf xs i).mp h with ⟨-, h2⟩
  cases i with
  | zero => simp [countOf] at h2
  | succ k => omega

theorem breaksOf_pairwise (xs : List ℤ) : List.Pairwise (· < ·) (breaksOf xs) :=
  (List.pairwise_lt_range _).filter _

/-! ## The slicing step equals the reference decomposition -/

theorem pySlice_of_length_le (xs : List ℤ) (s f : ℕ) (h : xs.length ≤ f) :
    pySlice xs s f = xs.drop s := by
  rw [pySlice]
  apply List.take_of_length_le
  rw [List.length_drop]
  omega

theorem zip_slices_eq_sliceList (xs : List ℤ) :
    ∀ (bs : List ℕ) (s : ℕ),
      (((s :: bs).zip (bs ++ [(countOf xs).length])).map fun q => pySlice xs q.1 q.2) =
        sliceList xs s bs
  | [], s => by
    show [pySlice xs s ((countOf xs).length)] = sliceList xs s []
    rw [pySlice_of_length_le xs s _ (length_le_countOf_length xs)]
    rfl
  | p :: ps, s => by
    show pySlice xs s p ::
        (((p :: ps).zip (ps ++ [(countOf xs).length])).map fun q => pySlice xs q.1 q.2) =
      sliceList xs s (p :: ps)
    rw [zip_slices_eq_sliceList xs ps p]
    rfl

theorem consecutive_eq_filter_sliceList (xs : List ℤ) :
    consecutive xs =
      (sliceList xs 0 (breaksOf xs)).filter fun e => decide (1 < e.length) := by
  unfold consecutive
  rw [zip_slices_eq_sliceList]

theorem sliceList_eq_specRuns (xs : List ℤ)
    (hgap : ∀ i, 1 ≤ i → i < xs.length → 1 ≤ xs.getD i 0 - xs.getD (i - 1) 0) :
    ∀ (bs : List ℕ), ∀ (s : ℕ), s < xs.length →
      (∀ p ∈ bs, s < p ∧ p < xs.length ∧ 1 < xs.getD p 0 - xs.getD (p - 1) 0) →
      List.Pairwise (· < ·) bs →
      (∀ i, s < i → i < xs.length → 1 < xs.getD i 0 - xs.getD (i - 1) 0 → i ∈ bs) →
      sliceList xs s bs = specRuns (xs.drop s) := by
  intro bs
  induction bs with
  | nil =>
    intro s hs _ _ hexact
    have hne : xs.drop s ≠ [] := by
      apply List.ne_nil_of_length_pos
      rw [List.length_drop]
      omega
    have hch : List.Chain' (fun a b => b = a + 1) (xs.drop s) := by
      rw [chain'_iff_getD]
      intro j hj
      rw [List.length_drop] at hj
      rw [getD_drop, getD_drop, ← Nat.add_assoc]
      have hi2 : s + j + 1 < xs.length := by omega
      have hlow := hgap (s + j + 1) (by omega) hi2
      rw [Nat.add_sub_cancel] at hlow
      by_cases hgt : 1 < xs.getD (s + j + 1) 0 - xs.getD (s + j) 0
      · exfalso
        have hmem := hexact (s + j + 1) (by omega) hi2 (by rw [Nat.add_sub_cancel]; exact hgt)
        simp at hmem
      · omega
    rw [specRuns_of_chain (xs.drop s) hne hch]
    rfl
  | cons p ps ih =>
    intro s hs hmem hpw hexact
    obtain ⟨hsp, hpn, hgapp⟩ := hmem p (List.mem_cons_self _ _)
    have hps_gt : ∀ q ∈ ps, p < q := (List.pairwise_cons.mp hpw).1
    have hpw2 : List.Pairwise (· < ·) ps := (List.pairwise_cons.mp hpw).2
    have hlenA : (pySlice xs s p).length = p - s := by
      rw [pySlice, List.length_take, List.length_drop]
      omega
    have hAne : pySlice xs s p ≠ [] := by
      apply List.ne_nil_of_length_pos
      rw [hlenA]
      omega
    have hchA : List.Chain' (fun a b => b = a + 1) (pySlice xs s p) := by
      rw [chain'_iff_getD]
      intro j hj
      rw [hlenA] at hj
      rw [getD_pySlice xs s p (j + 1) (by omega), getD_pySlice xs s p j (by omega),
        ← Nat.add_assoc]
      have hi2 : s + j + 1 < xs.length := by omega
      have hlow := hgap (s + j + 1) (by omega) hi2
      rw [Nat.add_sub_cancel] at hlow
      by_cases hgt : 1 < xs.getD (s + j + 1) 0 - xs.getD (s + j) 0
      · exfalso
        have hmem2 := hexact (s + j + 1) (by omega) hi2 (by rw [Nat.add_sub_cancel]; exact hgt)
        rcases List.mem_cons.mp hmem2 with heq | hin
        · omega
        · have := hps_gt _ hin
          omega
      · omega
    have happ : pySlice xs s p ++ xs.drop p = xs.drop s := by
      rw [pySlice]
      have hdd : (xs.drop s).drop (p - s) = xs.drop p := by
        rw [List.drop_drop]
        congr 1
        omega
      rw [← hdd, List.take_append_drop]
    have hcond : xs.drop p = [] ∨
        (xs.drop p).getD 0 0 ≠ (pySlice xs s p).getD ((pySlice xs s p).length - 1) 0 + 1 := by
      refine Or.inr ?_
      rw [getD_drop, hlenA, getD_pySlice xs s p (p - s - 1) (by omega),
        show s + (p - s - 1) = p - 1 from by omega, show p + 0 = p from by omega]
      omega
    have hmem2 : ∀ q ∈ ps, p < q ∧ q < xs.length ∧ 1 < xs.getD q 0 - xs.getD (q - 1) 0 := by
      intro q hq
      obtain ⟨-, hq2, hq3⟩ := hmem q (List.mem_cons_of_mem _ hq)
      exact ⟨hps_gt q hq, hq2, hq3⟩
    have hexact2 : ∀ i, p < i → i < xs.length →
        1 < xs.getD i 0 - xs.getD (i - 1) 0 → i ∈ ps := by
      intro i hpi hin hgt
      rcases List.mem_cons.mp (hexact i (by omega) hin hgt) with heq | hin2
      · exact absurd heq (by omega)
      · exact hin2
    have ihp := ih p hpn hmem2 hpw2 hexact2
    show pySlice xs s p :: sliceList xs p ps = specRuns (xs.drop s)
    rw [ihp, ← happ, specRuns_append (pySlice xs s p) hAne hchA (xs.drop p) hcond]

/-- Central helper: on a strictly ascending position list, the run detector
of the source computes exactly the reference maximal-run decomposition with
singleton runs discarded. -/
theorem consecutive_eq_specMaximalRuns (xs : List ℤ)
    (hxs : List.Chain' (· < ·) xs) : consecutive xs = specMaximalRuns xs := by
  cases xs with
  | nil => rfl
  | cons a t =>
    have hlen : (countOf (a :: t)).length = (a :: t).length := by
      rw [countOf_length, List.length_cons]
    have hgap : ∀ i, 1 ≤ i → i < (a :: t).length →
        1 ≤ (a :: t).getD i 0 - (a :: t).getD (i - 1) 0 := by
      intro i h1 hi
      obtain ⟨k, rfl⟩ : ∃ k, i = k + 1 := ⟨i - 1, by omega⟩
      have hst := (chain'_iff_getD (a :: t)).mp hxs k hi
      simp only [Nat.add_sub_cancel]
      omega
    have hbmem : ∀ p ∈ breaksOf (a :: t), 0 < p ∧ p < (a :: t).length ∧
        1 < (a :: t).getD p 0 - (a :: t).getD (p - 1) 0 := by
      intro p hp
      have h1 := breaksOf_pos _ p hp
      obtain ⟨hp1, hp2⟩ := (mem_breaksOf _ p).mp hp
      rw [hlen] at hp1
      obtain ⟨k, rfl⟩ : ∃ k, p = k + 1 := ⟨p - 1, by omega⟩
      refine ⟨by omega, hp1, ?_⟩
      rw [countOf_getD_succ, diffsOf_getD _ k hp1] at hp2
      simp only [Nat.add_sub_cancel]
      omega
    have hbexact : ∀ i, 0 < i → i < (a :: t).length →
        1 < (a :: t).getD i 0 - (a :: t).getD (i - 1) 0 → i ∈ breaksOf (a :: t) := by
      intro i h0 hi hgt
      obtain ⟨k, rfl⟩ : ∃ k, i = k + 1 := ⟨i - 1, by omega⟩
      rw [mem_breaksOf, hlen]
      refine ⟨hi, ?_⟩
      rw [countOf_getD_succ, diffsOf_getD _ k hi]
      simp only [Nat.add_sub_cancel] at hgt
      omega
    rw [consecutive_eq_filter_sliceList,
      sliceList_eq_specRuns (a :: t) hgap (breaksOf (a :: t)) 0 (by simp) hbmem
        (breaksOf_pairwise _) hbexact,
      List.drop_zero]
    rfl

/-! ## Five-year slice boundaries (source lines 1196-1218 and 1310-1331) -/

/-- Seconds per calendar day.  The daily series index is rebuilt by `main`
as a pandas date_range of midnights (source lines 124-125), so every index
entry, measured in seconds, is an integer multiple of this value. -/
def secondsPerDay : ℤ := 86400

/-- The exact pandas value of one Timedelta year (`unit=Y`): 365.2425 days,
in seconds.  The slice boundaries of the source are built from this. -/
def yearDelta : ℤ := 31556952

/-- Membership of a timestamp `t` in the k-th one-year slice of the
five-year lookback ending at the last frame entry `E`, translated from the
label slicing of source lines 1310-1331 (and identically 1196-1218):
slice 1 is `loc[E-1Y:]` inside the frame ending at `E`, slices 2-4 are
`loc[E-kY : E-(k-1)Y]`, slice 5 is `loc[:E-4Y]`; pandas label slices are
inclusive at both ends. -/
def inYearSlice (E t : ℤ) : ℕ → Bool
  | 1 => decide (E - yearDelta ≤ t ∧ t ≤ E)
  | 2 => decide (E - 2 * yearDelta ≤ t ∧ t ≤ E - yearDelta)
  | 3 => decide (E - 3 * yearDelta ≤ t ∧ t ≤ E - 2 * yearDelta)
  | 4 => decide (E - 4 * yearDelta ≤ t ∧ t ≤ E - 3 * yearDelta)
  | 5 => decide (t ≤ E - 4 * yearDelta)
  | _ => false

/-- C1: for every site and reference date, the five 1-year slices y1..y5 of
the five-year lookback are non-overlapping: no calendar day (a midnight
timestamp, hence a multiple of 86400 seconds, like the window end E)
belongs to more than one slice.  The boundaries E - k*yearDelta carry a
time-of-day remainder of k*20952 seconds, never zero for k = 1..4, so a
midnight entry can never sit on a shared inclusive boundary. -/
theorem year_slices_pairwise_disjoint (E t : ℤ) (i j : ℕ)
    (hE : secondsPerDay ∣ E) (ht : secondsPerDay ∣ t) (hij : i ≠ j)
    (hi1 : 1 ≤ i) (hi5 : i ≤ 5) (hj1 : 1 ≤ j) (hj5 : j ≤ 5) :
    ¬(inYearSlice E t i = true ∧ inYearSlice E t j = true) := by
  obtain ⟨a, rfl⟩ := hE
  obtain ⟨b, rfl⟩ := ht
  interval_cases i <;> interval_cases j <;>
    simp_all [inYearSlice, secondsPerDay, yearDelta] <;> omega

/-- Witness for C1 at a concrete midnight pair: the day one day before the
window end lies in slice y1 and not in slice y2. -/
theorem year_slices_pairwise_disjoint_witness :
    ¬(inYearSlice 0 (-86400) 1 = true ∧ inYearSlice 0 (-86400) 2 = true) :=
  year_slices_pairwise_disjoint 0 (-86400) 1 2 ⟨0, by norm_num⟩
    ⟨-1, by norm_num [secondsPerDay]⟩ (by omega) (by omega) (by omega)
    (by omega) (by omega)

/-! ## Coefficient of variation (source lines 1022-1042, 1103-1108) -/

/-- Result of a numpy float64 scalar computation: finite, signed infinity,
or NaN. -/
inductive NpVal
  | nan
  | posinf
  | neginf
  | fin (x : ℝ)

/-- numpy float64 scalar division.  Dividing by zero yields NaN (0/0) or a
signed infinity and only emits a runtime warning; it never raises
ZeroDivisionError, so the except-clauses guarding the variability fields
(source lines 1027-1042) are unreachable. -/
noncomputable def npDiv (a b : ℝ) : NpVal :=
  if b = 0 then (if a = 0 then NpVal.nan else if 0 < a then NpVal.posinf else NpVal.neginf)
  else NpVal.fin (a / b)

/-- np.mean of a window column. -/
noncomputable def npMean (xs : List ℝ) : ℝ := xs.sum / xs.length

/-- np.std of a window column: population standard deviation (numpy passes
ddof = 0 to the pandas method). -/
noncomputable def npStd (xs : List ℝ) : ℝ :=
  Real.sqrt (npMean (xs.map fun x => (x - npMean xs) ^ 2))

/-- The stored variability field `np.std(w) / np.mean(w)` of source lines
1024-1025 (and every analogous var field), with numpy scalar division
semantics. -/
noncomputable def varStat (xs : List ℝ) : NpVal := npDiv (npStd xs) (npMean xs)

/-- C3 (code_bug evidence): on a window with values -1 and 1 the mean is
exactly zero and the standard deviation is 1, and the variability field is
assigned the value +inf — a value is stored, the field is not left absent.
On the all-zero window the stored value is NaN (the pandas missing-value
marker), which does match the claimed absence.  No exception propagates in
either case. -/
theorem variability_zero_mean_behaviour :
    varStat [-1, 1] = NpVal.posinf ∧ varStat [0, 0] = NpVal.nan := by
  constructor
  · have hm : npMean [(-1 : ℝ), 1] = 0 := by norm_num [npMean]
    have hs : npStd [(-1 : ℝ), 1] = 1 := by
      simp only [npStd, hm]
      norm_num [npMean, Real.sqrt_one]
    simp only [varStat, hm, hs]
    unfold npDiv
    rw [if_pos rfl, if_neg one_ne_zero, if_pos one_pos]
  · have hm : npMean [(0 : ℝ), 0] = 0 := by norm_num [npMean]
    have hs : npStd [(0 : ℝ), 0] = 0 := by
      simp only [npStd, hm]
      norm_num [npMean, Real.sqrt_zero]
    simp only [varStat, hm, hs]
    unfold npDiv
    rw [if_pos rfl, if_pos rfl]

/-! ## Window temperature minima and maxima (source lines 1002-1020) -/

structure WinRow where
  tmdw : ℚ
  tmin : ℚ
  tmax : ℚ

/-- Stored field `min tmdw`: np.amin over the window column (line 1003). -/
def minTmdwStat (w : List WinRow) : Option ℚ := (w.map WinRow.tmdw).min?

/-- Stored field `min tmin`: np.amin over the window column (line 1005). -/
def minTminStat (w : List WinRow) : Option ℚ := (w.map WinRow.tmin).min?

/-- Stored field `min tmax`: source lines 1007-1008 compute np.amax of the
tmax column for this field. -/
def minTmaxStat (w : List WinRow) : Option ℚ := (w.map WinRow.tmax).max?

/-- Stored field `max tmdw`: np.amax (line 1013). -/
def maxTmdwStat (w : List WinRow) : Option ℚ := (w.map WinRow.tmdw).max?

/-- Stored field `max tmin`: np.amax (line 1015). -/
def maxTminStat (w : List WinRow) : Option ℚ := (w.map WinRow.tmin).max?

/-- Stored field `max tmax`: np.amax (line 1017). -/
def maxTmaxStat (w : List WinRow) : Option ℚ := (w.map WinRow.tmax).max?

/-- C5 (code_bug evidence): on the two-day window whose tmax values are 10
and 20, the stored `min tmax` field holds 20 — the maximum of the column —
while the true minimum of the column is 10. -/
theorem min_tmax_field_stores_maximum :
    minTmaxStat [⟨1, 0, 10⟩, ⟨2, 1, 20⟩] = some 20 ∧
    ([(⟨1, 0, 10⟩ : WinRow), ⟨2, 1, 20⟩].map WinRow.tmax).min? = some 10 ∧
    minTmaxStat [⟨1, 0, 10⟩, ⟨2, 1, 20⟩] ≠
      ([(⟨1, 0, 10⟩ : WinRow), ⟨2, 1, 20⟩].map WinRow.tmax).min? := by
  refine ⟨?_, ?_, ?_⟩ <;> decide

/-! ## Per-site batch loop (source lines 100-153; date lookup lines 907-926) -/

structure DayRec where
  tmdw : ℚ
  tmin : ℚ
  tmax : ℚ
  vpd : ℚ
  pre : Option ℚ

/-- Scalar `.loc` lookup on the series: a date absent from the index raises
KeyError, modelled as the error of an Except computation. -/
def lookupDate (series : List (ℤ × DayRec)) (dt : ℤ) : Except Unit DayRec :=
  match series.find? fun r => decide (r.1 = dt) with
  | some r => Except.ok r.2
  | none => Except.error ()

/-- `day_forcings` (source lines 886-926): reads the series at the day
immediately before the collection date; a lookup failure propagates. -/
def day_forcings (series : List (ℤ × DayRec)) (collect : ℤ) : Except Unit DayRec :=
  lookupDate series (collect - 1)

/-- The per-site loop of `main` (source lines 100-153), restricted to the
day-forcings part: the loop body has no try/except, so an exception raised
while processing one site propagates and every later site is left
unprocessed.  Exception propagation is the error case of the Except
monad, written as explicit matches. -/
def siteLoop (series : List (ℤ × DayRec)) : List ℤ → Except Unit (List DayRec)
  | [] => Except.ok []
  | c :: cs =>
    match day_forcings series c with
    | Except.error e => Except.error e
    | Except.ok v =>
      match siteLoop series cs with
      | Except.error e => Except.error e
      | Except.ok vs => Except.ok (v :: vs)

/-- A one-day series holding only day 9. -/
def demoSeries : List (ℤ × DayRec) := [(9, ⟨0, 0, 0, 0, none⟩)]

/-- C9 (counterexample): with a series containing only day 9, the batch of
two sites collecting on days 5 and 10 aborts with the first lookup failure
(day 4 is missing) and produces no result at all — even though the second
site alone would succeed (day 9 is present). -/
theorem lookup_failure_aborts_batch_example :
    siteLoop demoSeries [5, 10] = Except.error () ∧
    day_forcings demoSeries 10 = Except.ok ⟨0, 0, 0, 0, none⟩ :=
  ⟨rfl, rfl⟩

/-- C9 (amended): a lookup failure for any site in the batch makes the
whole batch loop return that failure; the computations of the other sites
do not complete and no results are produced. -/
theorem lookup_failure_aborts_batch (series : List (ℤ × DayRec)) :
    ∀ (sites : List ℤ) (site : ℤ), site ∈ sites →
      day_forcings series site = Except.error () →
      siteLoop series sites = Except.error () := by
  intro sites
  induction sites with
  | nil =>
    intro site h hfail
    simp at h
  | cons c cs ih =>
    intro site hmem hfail
    rcases List.mem_cons.mp hmem with rfl | hmem2
    · simp only [siteLoop]
      rw [hfail]
    · simp only [siteLoop]
      cases hc : day_forcings series c with
      | error e => rfl
      | ok v =>
        rw [ih site hmem2 hfail]

/-- Witness for C9 at the demo batch: site 5 is in the batch, its lookup
fails, and the whole batch loop returns the error. -/
theorem lookup_failure_aborts_batch_witness :
    ((5 : ℤ) ∈ [(5 : ℤ), 10] ∧ day_forcings demoSeries 5 = Except.error ()) ∧
      siteLoop demoSeries [5, 10] = Except.error () :=
  ⟨⟨by decide, rfl⟩, lookup_failure_aborts_batch demoSeries [5, 10] 5 (by decide) rfl⟩

/-! ## Spell metrics (`metrics`, source lines 1243-1583) -/

structure MetRow where
  date : ℤ
  tmdw3 : ℚ
  tmdw30 : ℚ
  vpd3 : ℚ
  vpd30 : ℚ
  pre : Option ℚ

/-- Default row used for positional access (never reached: the source only
uses .iloc[j] for j in range(len(frame))). -/
def mrow0 : MetRow := ⟨0, 0, 0, 0, 0, none⟩

/-- The excess-heat test of source lines 1346-1347: the trailing 3-day mean
of the midpoint temperature exceeds the back-shifted trailing 30-day
mean. -/
def excessHeat (r : MetRow) : Bool := decide (r.tmdw30 < r.tmdw3)

/-- The excess-dryness test of source lines 1435-1436, identical in shape
on the vpd columns. -/
def excessDry (r : MetRow) : Bool := decide (r.vpd30 < r.vpd3)

/-- BoM no-rain threshold (source lines 131 and 1521). -/
def BoM_thr : ℚ := 0.200000002980232

/-- The masking of source line 132: `ma.masked_where(pre <= thr, pre)`
assigned into a pandas float column turns every masked entry into NaN,
modelled as `none`. -/
def maskPre (x : ℚ) : Option ℚ := if x ≤ BoM_thr then none else some x

/-- The rainless test of source line 1522 applied to a cell of the masked
column: a NaN cell compares False under `<=` (IEEE comparison semantics);
a present value is compared against the threshold. -/
def rainlessDay (x : Option ℚ) : Bool :=
  match x with
  | none => false
  | some v => decide (v ≤ BoM_thr)

/-- The rainless test on a frame row (`ppts[i].iloc[j] <= BoM_thr`,
source line 1522). -/
def rainlessRow (r : MetRow) : Bool := rainlessDay r.pre

/-- Frame row positions at which a Boolean row test holds — the list
comprehensions over `range(len(frame))` of the source. -/
def rowPositions (p : MetRow → Bool) (f : List MetRow) : List ℤ :=
  ((List.range f.length).filter fun j => p (f.getD j mrow0)).map Int.ofNat

/-- Qualifying heatwave runs of one year slice: run-detect the excess
positions and keep runs of length at least 3 (source line 1348). -/
def heatSpells (f : List MetRow) : List (List ℤ) :=
  (consecutive (rowPositions excessHeat f)).filter fun e => decide (3 ≤ e.length)

/-- Rainless runs of one year slice (source lines 1522-1523): no extra
length floor beyond the singleton dropping of the run detector. -/
def noPptRuns (f : List MetRow) : List (List ℤ) :=
  consecutive (rowPositions rainlessRow f)

/-- Calendar date range (first date, last date) of a run of frame
positions (source lines 1379-1381). -/
def runDates (f : List MetRow) (r : List ℤ) : ℤ × ℤ :=
  ((f.getD (r.headD 0).toNat mrow0).date, (f.getD (r.getLastD 0).toNat mrow0).date)

structure SpellStats where
  totalN : ℕ
  avgNdays : Option ℚ
  maxNdays : Option ℕ
  datesMax : Option (ℤ × ℤ)
  mostRecent : Option (ℤ × ℤ)

/-- The y1 iteration of the heatwave loop of `metrics` (source lines
1344-1391).  Inside the try-block the spell count is stored first, then the
mean length (np.mean of an empty list is NaN, modelled as `none`), then
np.amax — which raises ValueError on an empty run list and skips the two
date fields; np.argmax picks the first run of maximal length; the
most-recent date range is stored only when more than one run exists. -/
def heatStatsY1 (f : List MetRow) : SpellStats :=
  let runs := heatSpells f
  { totalN := runs.length
    avgNdays := if runs.length = 0 then none
      else some (((runs.map List.length).sum : ℚ) / (runs.length : ℚ))
    maxNdays := (runs.map List.length).max?
    datesMax := match (runs.map List.length).max? with
      | none => none
      | some m => (runs.find? fun r => decide (r.length = m)).map (runDates f)
    mostRecent := if 1 < runs.length then some (runDates f (runs.getLastD [])) else none }

structure NoPptStats where
  maxNdays : Option ℕ
  datesMax : Option (ℤ × ℤ)
  mostRecent : Option (ℤ × ℤ)

/-- The y1 iteration of the no-rain loop of `metrics` (source lines
1518-1559): np.amax raises ValueError on an empty run list (all fields
skipped); the most-recent range again needs strictly more than one run. -/
def noPptStatsY1 (f : List MetRow) : NoPptStats :=
  let runs := noPptRuns f
  { maxNdays := (runs.map List.length).max?
    datesMax := match (runs.map List.length).max? with
      | none => none
      | some m => (runs.find? fun r => decide (r.length = m)).map (runDates f)
    mostRecent := if 1 < runs.length then some (runDates f (runs.getLastD [])) else none }

/-- The interannual season pooling of source lines 1396-1408: for each of
the five season-restricted year frames, detect excess-heat runs of length
at least 3 on the frame row positions and concatenate the per-frame run
lists (`ind += ...`). -/
def seasonHeatRuns (frames : List (List MetRow)) : List (List ℤ) :=
  frames.foldl (fun acc f => acc ++ heatSpells f) []

/-- An excess row at a given calendar date (day offset). -/
def hotRow (d : ℤ) : MetRow := ⟨d, 1, 0, 0, 0, none⟩

/-- A non-excess row at a given calendar date. -/
def coolRow (d : ℤ) : MetRow := ⟨d, 0, 1, 0, 0, none⟩

/-- A season-restricted year frame as get_season produces for a
mid-latitude summer slice: the last two February days and the first
December day of one year slice.  Rows 1 and 2 are adjacent rows of the
frame but nine months apart in the calendar. -/
def frameGap : List MetRow := [hotRow 58, hotRow 59, hotRow 335]

/-- Three consecutive days of 0.0 mm precipitation, masked by `main`
before `metrics` runs. -/
def frameRain : List MetRow :=
  [⟨0, 0, 0, 0, 0, maskPre 0⟩, ⟨1, 0, 0, 0, 0, maskPre 0⟩, ⟨2, 0, 0, 0, 0, maskPre 0⟩]

/-- A year frame whose excess signal is true on days 0-3, false on day 4
and true on days 5-6: the spell-detection test scenario of the spec. -/
def frame7 : List MetRow :=
  [hotRow 0, hotRow 1, hotRow 2, hotRow 3, coolRow 4, hotRow 5, hotRow 6]

/-- C10: the run detector is total at its boundary inputs: the empty
position list and any single-position list return the empty run list.  The
embedding mirrors the index arithmetic of the source exactly (count = [1],
start = [0], finish = [len(count)], a single fragment that is dropped as
empty or length-1), so no access is out of range. -/
theorem run_detector_total_on_boundary :
    consecutive [] = [] ∧ ∀ x : ℤ, consecutive [x] = [] :=
  ⟨rfl, fun _ => rfl⟩

/-- C8: on every strictly ascending position list the run detector returns
exactly the maximal runs of positions with pairwise adjacent gap 1, all
runs of length 1 discarded (`specMaximalRuns` is written from the spec
wording); on [1,2,3,7,8,10] it returns [[1,2,3],[7,8]] (witness). -/
theorem run_detector_matches_spec (xs : List ℤ) (h : List.Chain' (· < ·) xs) :
    consecutive xs = specMaximalRuns xs :=
  consecutive_eq_specMaximalRuns xs h

/-- Witness for C8: the concrete example of the spec. -/
theorem run_detector_matches_spec_witness :
    List.Chain' (· < ·) [(1 : ℤ), 2, 3, 7, 8, 10] ∧
      consecutive [(1 : ℤ), 2, 3, 7, 8, 10] = [[1, 2, 3], [7, 8]] := by
  have hch : List.Chain' (· < ·) [(1 : ℤ), 2, 3, 7, 8, 10] := by
    norm_num [List.chain'_cons]
  exact ⟨hch, by rw [run_detector_matches_spec _ hch]; decide⟩

/-- C7: within a year slice only maximal runs of at least 3 consecutive
excess days count as spells; on the excess pattern
true,true,true,true,false,true,true the reported spell count is 1, the max
run length is 4 and the mean run length is 4 (the 2-day run is below the
length-3 floor); in general every reported spell has length at least 3. -/
theorem spell_floor_and_counts :
    (heatStatsY1 frame7).totalN = 1 ∧
    (heatStatsY1 frame7).maxNdays = some 4 ∧
    (heatStatsY1 frame7).avgNdays = some 4 ∧
    ∀ (f : List MetRow) (r : List ℤ), r ∈ heatSpells f → 3 ≤ r.length := by
  have hruns : heatSpells frame7 = [[0, 1, 2, 3]] := by decide
  refine ⟨by decide, by decide, ?_, ?_⟩
  · simp [heatStatsY1, hruns]
  · intro f r hr
    have h := List.of_mem_filter hr
    simpa using h

/-- Witness for C7: the 4-day run is reported and meets the floor. -/
theorem spell_floor_and_counts_witness :
    [(0 : ℤ), 1, 2, 3] ∈ heatSpells frame7 ∧ 3 ≤ ([(0 : ℤ), 1, 2, 3] : List ℤ).length :=
  ⟨by decide, spell_floor_and_counts.2.2.2 frame7 [0, 1, 2, 3] (by decide)⟩

/-- C6: in the y1 slice the most-recent-run date range is populated exactly
when strictly more than one qualifying run exists, and with exactly one
run it stays absent.  Stated for the heatwave and the rainless families
(the dry-spell code, source lines 1472-1480, is verbatim the heatwave
logic on the vpd columns). -/
theorem most_recent_requires_second_run (f : List MetRow) :
    (((heatStatsY1 f).mostRecent).isSome ↔ 1 < (heatSpells f).length) ∧
    ((heatSpells f).length = 1 → (heatStatsY1 f).mostRecent = none) ∧
    (((noPptStatsY1 f).mostRecent).isSome ↔ 1 < (noPptRuns f).length) ∧
    ((noPptRuns f).length = 1 → (noPptStatsY1 f).mostRecent = none) := by
  refine ⟨?_, ?_, ?_, ?_⟩
  · by_cases h : 1 < (heatSpells f).length
    · simp [heatStatsY1, h]
    · simp [heatStatsY1, h]
  · intro h1
    simp [heatStatsY1, h1]
  · by_cases h : 1 < (noPptRuns f).length
    · simp [noPptStatsY1, h]
    · simp [noPptStatsY1, h]
  · intro h1
    simp [noPptStatsY1, h1]

/-- Witness for C6: one qualifying run in y1 leaves the most-recent field
absent. -/
theorem most_recent_requires_second_run_witness :
    (heatSpells [hotRow 0, hotRow 1, hotRow 2]).length = 1 ∧
      (heatStatsY1 [hotRow 0, hotRow 1, hotRow 2]).mostRecent = none :=
  ⟨by decide, (most_recent_requires_second_run [hotRow 0, hotRow 1, hotRow 2]).2.1 (by decide)⟩

/-- C2 (code_bug evidence): a day with 0.0 mm precipitation (at most the
0.2 mm threshold) is masked to NaN by `main` before `metrics` runs; the
rainless test of the metric then evaluates False on that day, and on three
such consecutive days no run is detected at all — the max-Ndays-no-ppt
field stays absent instead of reporting the 3-day rainless spell the claim
expects. -/
theorem rainless_days_never_detected :
    maskPre 0 = none ∧
    rainlessDay (maskPre 0) = false ∧
    rowPositions rainlessRow frameRain = [] ∧
    (noPptStatsY1 frameRain).maxNdays = none := by
  have hmask : maskPre 0 = none := by
    rw [maskPre, if_pos]
    norm_num [BoM_thr]
  have hfr : frameRain =
      [⟨0, 0, 0, 0, 0, none⟩, ⟨1, 0, 0, 0, 0, none⟩, ⟨2, 0, 0, 0, 0, none⟩] := by
    rw [frameRain, hmask]
  refine ⟨hmask, by rw [hmask]; rfl, ?_, ?_⟩
  · rw [hfr]
    decide
  · rw [hfr]
    decide

/-- C4 (counterexample): on a single season-restricted year frame whose
rows sit at calendar dates 58, 59 and 335 — rows 1 and 2 are not adjacent
calendar days — the interannual detection reports the single run [0,1,2]
of frame positions, spanning the calendar gap the claim says no run
spans. -/
theorem season_run_spans_calendar_gap :
    seasonHeatRuns [frameGap] = [[0, 1, 2]] ∧
    (frameGap.getD 1 mrow0).date + 1 ≠ (frameGap.getD 2 mrow0).date := by
  refine ⟨?_, ?_⟩ <;> decide

/-- Helper for C4: membership in the folded interannual run list comes
from the accumulator or from one of the frames. -/
theorem mem_seasonHeatRuns :
    ∀ (frames : List (List MetRow)) (acc : List (List ℤ)) (r : List ℤ),
      r ∈ frames.foldl (fun a f => a ++ heatSpells f) acc →
      r ∈ acc ∨ ∃ f ∈ frames, r ∈ heatSpells f
  | [], _, _, h => Or.inl h
  | f0 :: fs, acc, r, h => by
    rcases mem_seasonHeatRuns fs (acc ++ heatSpells f0) r h with h2 | ⟨f1, hf1, hr1⟩
    · rcases List.mem_append.mp h2 with ha | hb
      · exact Or.inl ha
      · exact Or.inr ⟨f0, List.mem_cons_self _ _, hb⟩
    · exact Or.inr ⟨f1, List.mem_cons_of_mem _ hf1, hr1⟩

/-- Helper for C4: the excess positions of a frame are strictly
ascending. -/
theorem rowPositions_chain (p : MetRow → Bool) (f : List MetRow) :
    List.Chain' (· < ·) (rowPositions p f) := by
  rw [List.chain'_iff_pairwise]
  apply List.Pairwise.map
  · intro a b hab
    exact Int.ofNat_lt.mpr hab
  · exact (List.pairwise_lt_range _).filter _

/-- C4 (amended): every run reported by the interannual season detection
consists of positionally consecutive rows of one season-restricted year
frame — successive run entries differ by exactly 1 as frame positions —
and has length at least 3.  Calendar gaps inside a frame do not fragment
runs; only the per-year-slice pooling separates them. -/
theorem season_runs_positionally_consecutive (frames : List (List MetRow))
    (r : List ℤ) (h : r ∈ seasonHeatRuns frames) :
    List.Chain' (fun a b => b = a + 1) r ∧ 3 ≤ r.length := by
  rcases mem_seasonHeatRuns frames [] r h with h0 | ⟨f, hf, hr⟩
  · simp at h0
  · have hlen := List.of_mem_filter hr
    have hmem := List.mem_of_mem_filter hr
    rw [consecutive_eq_specMaximalRuns _ (rowPositions_chain excessHeat f)] at hmem
    have hmem2 := List.mem_of_mem_filter hmem
    exact ⟨chain'_of_mem_specRuns _ r hmem2, by simpa using hlen⟩

/-- Witness for the amended C4 at the gap frame. -/
theorem season_runs_positionally_consecutive_witness :
    [(0 : ℤ), 1, 2] ∈ seasonHeatRuns [frameGap] ∧
      (List.Chain' (fun a b => b = a + 1) [(0 : ℤ), 1, 2] ∧
        3 ≤ ([(0 : ℤ), 1, 2] : List ℤ).length) :=
  ⟨by decide, season_runs_positionally_consecutive [frameGap] [0, 1, 2] (by decide)⟩

end ClimateData
